import Mathlib

/-!
Verification of the NachOS thread/process execution core
(`code/threads/thread.cc` and `code/threads/scheduler.h`).

The development is a shallow embedding: the data the code manipulates
becomes Lean structures, C arrays become lists, fallible or undefined
behaviour (out-of-bounds accesses, failed `ASSERT`s, NULL dereferences)
becomes `Option` / explicit result constructors, and every embedded
operation is a computable function translated clause by clause from the
source.  The bodies of the `ProcessScheduler` methods (declared in
scheduler.h, defined in scheduler.cc which is not part of the sources at
hand) and the constants of thread.h are modelled from the specification
document, and are marked as such in their doc comments.
-/

namespace NachOS

/-- Interrupt level, mirroring `IntStatus` as used by `interrupt->SetLevel`
in thread.cc: `IntOff` = interrupts (preemption) disabled, `IntOn` = enabled. -/
inductive IntStatus
  | IntOff
  | IntOn
deriving DecidableEq, Repr

/-- Thread status as used in thread.cc: the constructor sets
`status = JUST_CREATED`; `PutThreadToSleep` sets `BLOCKED`; the scheduler
sets `READY` on enqueue and `RUNNING` on switch. -/
inductive ThreadStatus
  | JUST_CREATED
  | READY
  | RUNNING
  | BLOCKED
deriving DecidableEq, Repr

/-- Modelled from the spec: thread.h, which defines the `MAXCHILDCOUNT`
capacity of the per-thread child tables, is not among the sources; the spec
gives the child list a fixed capacity, e.g. 32. -/
def MAXCHILDCOUNT : Nat := 32

/-- The per-thread control block `NachOSThread`.  The class declaration
lives in thread.h (not among the sources); the fields below are exactly the
ones thread.cc reads and writes.  The C arrays `child_pids`,
`childexitcode` and `childexitstatus` (each of size `MAXCHILDCOUNT`) become
lists; `pid`, `ppid` and `waitchildindex` are C `int`s, so `Int`;
`parentthread` holds the parent's pid, `none` modelling a NULL
`parentthread` pointer. -/
structure NachOSThread where
  pid : Int
  ppid : Int
  parentthread : Option Int
  status : ThreadStatus
  childCount : Nat
  child_pids : List Int
  childexitcode : List Int
  childexitstatus : List Bool
  waitchildindex : Int
deriving DecidableEq, Repr

/-- The loop of `NachOSThread::SearchChildpid`: scan the list `l` (the first
`childCount` slots of `child_pids`), returning the index — offset by the
start index `k` — of the first element equal to `a`, or `none` if absent. -/
def searchAux (a : Int) : List Int → Nat → Option Nat
  | [], _ => none
  | p :: ps, k => if p = a then some k else searchAux a ps (k + 1)

/-- `NachOSThread::SearchChildpid` (thread.cc lines 379-385): linear scan of
`child_pids[0..childCount)` for `a`; returns the slot index of the first
occurrence, or `-1` when `a` is absent. -/
def NachOSThread.SearchChildpid (t : NachOSThread) (a : Int) : Int :=
  match searchAux a (t.child_pids.take t.childCount) 0 with
  | some i => (i : Int)
  | none => -1

/-- `NachOSThread::SetChildExitCode` (thread.cc lines 388-402), invoked on
the parent `t`: locates the child's slot `i` by `SearchChildpid`, then
writes `childexitcode[i] = code` and `childexitstatus[i] = true`; if
`waitchildindex == i` the parent clears `waitchildindex` and moves itself
back onto the ready queue (the returned Bool records that enqueue).  The C
code performs the two array writes with no bounds check: when the scan
yields `-1` (or the slot lies outside the arrays) both writes are out of
bounds, which the model renders as `none` (undefined behaviour). -/
def NachOSThread.SetChildExitCode (t : NachOSThread) (childpid code : Int) :
    Option (NachOSThread × Bool) :=
  let i := t.SearchChildpid childpid
  if 0 ≤ i ∧ i.toNat < t.childexitcode.length ∧ i.toNat < t.childexitstatus.length then
    let t1 : NachOSThread :=
      { t with childexitcode := t.childexitcode.set i.toNat code,
               childexitstatus := t.childexitstatus.set i.toNat true }
    if t1.waitchildindex = i then
      some ({ t1 with waitchildindex := -1 }, true)
    else
      some (t1, false)
  else
    none

/-- Outcome of `JoinThreadWithChild`: either the call returns exit code
`code` without blocking, leaving the thread as `t`, or the caller recorded
the awaited slot in `waitchildindex` and went to sleep (status `BLOCKED`). -/
inductive JoinOutcome
  | ret (code : Int) (t : NachOSThread)
  | blocked (t : NachOSThread)
deriving DecidableEq, Repr

/-- `NachOSThread::JoinThreadWithChild` (thread.cc lines 405-415), invoked
by the parent `t` on child slot `index`: if `childexitstatus[index]` is
false, records `waitchildindex = index` and calls `PutThreadToSleep` (which
sets status `BLOCKED`); otherwise it falls through and returns
`childexitcode[index]` with the thread unmodified.  An `index` outside the
arrays makes the reads out of bounds, rendered as `none`. -/
def NachOSThread.JoinThreadWithChild (t : NachOSThread) (index : Nat) :
    Option JoinOutcome :=
  if index < t.childexitstatus.length ∧ index < t.childexitcode.length then
    if t.childexitstatus.getD index false = false then
      some (.blocked { t with waitchildindex := (index : Int), status := .BLOCKED })
    else
      some (.ret (t.childexitcode.getD index 0) t)
  else
    none

/-- Outcome of `NachOSThread::FinishThread`: `readiedParent` is the parent
moved onto the ready queue (if any), and `halted` records whether
`interrupt->Halt()` was reached.  When `halted = false` the thread stored
itself in `threadToBeDestroyed` and went to sleep, never to resume. -/
structure FinishOutcome where
  readiedParent : Option Int
  halted : Bool
deriving DecidableEq, Repr

/-- `NachOSThread::FinishThread` (thread.cc lines 166-183), executed by the
current thread `t` (the code first disables interrupts and asserts
`this == currentThread`).  It reads `childexitstatus[pid]` — its own child
table indexed by its own pid (`none` when that read is out of bounds); if
the flag is set, a NULL `parentthread` halts the system, otherwise the
parent is moved to the ready queue.  The thread then records itself in
`threadToBeDestroyed`; if `childCount == 0` the system halts; otherwise the
thread sleeps. -/
def NachOSThread.FinishThread (t : NachOSThread) : Option FinishOutcome :=
  if 0 ≤ t.pid ∧ t.pid.toNat < t.childexitstatus.length then
    if t.childexitstatus.getD t.pid.toNat false then
      if t.parentthread = none then
        some { readiedParent := none, halted := true }
      else if t.childCount = 0 then
        some { readiedParent := t.parentthread, halted := true }
      else
        some { readiedParent := t.parentthread, halted := false }
    else
      if t.childCount = 0 then
        some { readiedParent := none, halted := true }
      else
        some { readiedParent := none, halted := false }
  else
    none

/-- The `availpid` counter and the `NachOSThread::NachOSThread` constructor
(thread.cc lines 35-65, USER_PROGRAM branch): `pid = availpid++`; the thread
with `pid == 1` gets `ppid = 0` and a NULL parent pointer, every other one
gets `ppid = currentThread->GetPID()` and `parentthread = currentThread`.
`cur` is the pid of `currentThread` at construction time, `none` modelling a
NULL `currentThread` whose dereference would be fatal (result `none`).
`childCount = 0`, `waitchildindex = -1`, and every `childexitstatus` slot is
set to false.  The C++ constructor leaves `child_pids` and `childexitcode`
uninitialised; the model fills zeros, and no theorem relies on those initial
values. -/
def constructThread (availpid : Int) (cur : Option Int) :
    Option (NachOSThread × Int) :=
  if availpid = 1 then
    some ({ pid := 1, ppid := 0, parentthread := none, status := .JUST_CREATED,
            childCount := 0, child_pids := List.replicate MAXCHILDCOUNT 0,
            childexitcode := List.replicate MAXCHILDCOUNT 0,
            childexitstatus := List.replicate MAXCHILDCOUNT false,
            waitchildindex := -1 }, availpid + 1)
  else
    match cur with
    | none => none
    | some c =>
        some ({ pid := availpid, ppid := c, parentthread := some c,
                status := .JUST_CREATED,
                childCount := 0, child_pids := List.replicate MAXCHILDCOUNT 0,
                childexitcode := List.replicate MAXCHILDCOUNT 0,
                childexitstatus := List.replicate MAXCHILDCOUNT false,
                waitchildindex := -1 }, availpid + 1)

/-- A sequence of thread constructions threading the `availpid` counter:
entry `i` of the input list is the pid of the thread current at the `i`-th
construction (`none` = NULL `currentThread`). -/
def constructSeqAux : Int → List (Option Int) → Option (List NachOSThread)
  | _, [] => some []
  | ap, c :: cs =>
      match constructThread ap c with
      | none => none
      | some (t, ap1) =>
          match constructSeqAux ap1 cs with
          | none => none
          | some ts => some (t :: ts)

/-- A sequence of thread constructions starting from the initial value of
the static counter, `availpid = 1`. -/
def runConstructions (curs : List (Option Int)) : Option (List NachOSThread) :=
  constructSeqAux 1 curs

/-- The scheduler-level state: the FIFO ready queue of thread ids, the id of
the running thread (`currentThread`), the interrupt level, and each
thread's status. -/
structure SysState where
  readyQueue : List Nat
  current : Nat
  intLevel : IntStatus
  statusOf : Nat → ThreadStatus

/-- Modelled from the spec: scheduler.cc — the body of
`ProcessScheduler::MoveThreadToReadyQueue`, declared at scheduler.h line
25 — is not among the sources.  Per spec §4.3, `enqueueReady` appends the
thread at the tail of the FIFO ready queue and sets its status to Ready. -/
def MoveThreadToReadyQueue (s : SysState) (t : Nat) : SysState :=
  { s with readyQueue := s.readyQueue ++ [t],
           statusOf := Function.update s.statusOf t .READY }

/-- Modelled from the spec: scheduler.cc — the body of
`ProcessScheduler::SelectNextReadyThread`, declared at scheduler.h line
26 — is not among the sources.  Per spec §4.3, `dequeueReady` removes and
returns the head of the FIFO ready queue, or `none` (NULL) when empty. -/
def SelectNextReadyThread (s : SysState) : Option Nat × SysState :=
  match s.readyQueue with
  | [] => (none, s)
  | n :: rest => (some n, { s with readyQueue := rest })

/-- Modelled from the spec: scheduler.cc — the body of
`ProcessScheduler::ScheduleThread`, declared at scheduler.h line 30 — is
not among the sources.  Per spec §4.3, `switchTo` makes `next` the running
current thread and sets its status to Running. -/
def ScheduleThread (s : SysState) (next : Nat) : SysState :=
  { s with current := next,
           statusOf := Function.update s.statusOf next .RUNNING }

/-- `NachOSThread::YieldCPU` (thread.cc lines 203-219), invoked by thread
`t`: saves the interrupt level and turns interrupts off, asserts
`this == currentThread` (`none` = failed assertion), dequeues the next
ready thread; if there is one, re-enqueues `t` at the tail and switches to
the dequeued thread; finally restores the saved interrupt level. -/
def YieldCPU (t : Nat) (s : SysState) : Option SysState :=
  let oldLevel := s.intLevel
  let s1 : SysState := { s with intLevel := .IntOff }
  if t = s1.current then
    match SelectNextReadyThread s1 with
    | (none, s2) => some { s2 with intLevel := oldLevel }
    | (some n, s2) =>
        let s3 := MoveThreadToReadyQueue s2 t
        let s4 := ScheduleThread s3 n
        some { s4 with intLevel := oldLevel }
  else
    none

/-- The retry loop of `NachOSThread::PutThreadToSleep` (thread.cc lines
251-252): `while ((nextThread = SelectNextReadyThread()) == NULL) Idle();`.
`events` is the stream of external interrupt events; each `interrupt->Idle()`
consumes one, whose payload is the list of threads the event's handlers
moved onto the (empty) ready queue.  Returns the dequeued thread and the
remaining queue, or `none` when the event stream is exhausted with the
queue still empty — the CPU idles forever. -/
def sleepLoop : List Nat → List (List Nat) → Option (Nat × List Nat)
  | n :: rest, _ => some (n, rest)
  | [], [] => none
  | [], e :: es => sleepLoop e es

/-- Result of `PutThreadToSleep`: a failed `ASSERT` (fatal), an idle loop
that never finds a ready thread, or a switch to the dequeued thread. -/
inductive SleepResult
  | assertFail
  | stuck
  | switched (next : Nat) (s : SysState)

/-- `NachOSThread::PutThreadToSleep` (thread.cc lines 240-255), invoked by
thread `t` under external event stream `events`: asserts
`this == currentThread` and `interrupt->getLevel() == IntOff`, sets the
caller's status to `BLOCKED`, then dequeues the next ready thread — idling
while the queue is empty — and switches to it. -/
def PutThreadToSleep (t : Nat) (s : SysState) (events : List (List Nat)) :
    SleepResult :=
  if t = s.current ∧ s.intLevel = .IntOff then
    let s1 : SysState := { s with statusOf := Function.update s.statusOf t .BLOCKED }
    match sleepLoop s1.readyQueue events with
    | none => .stuck
    | some (n, rest) => .switched n (ScheduleThread { s1 with readyQueue := rest } n)
  else
    .assertFail

/-- Result of the destructor `NachOSThread::~NachOSThread`: either
`ASSERT(this != currentThread)` fails (fatal), or the thread object and its
stack are deallocated. -/
inductive DestructResult
  | assertFail
  | destroyed
deriving DecidableEq, Repr

/-- `NachOSThread::~NachOSThread` (thread.cc lines 79-88), run on thread
`t`: asserts that `t` is not the current thread, then frees the stack. -/
def threadDestructor (t : Nat) (s : SysState) : DestructResult :=
  if t = s.current then .assertFail else .destroyed

/-- A ready-queue operation: enqueue a thread id, or dequeue. -/
inductive QueueOp
  | enq (t : Nat)
  | deq
deriving DecidableEq, Repr

/-- A ready-queue run ledger: the live queue plus the histories of all
enqueued ids and of all successfully dequeued ids, each in order. -/
structure QueueTrace where
  queue : List Nat
  enqueued : List Nat
  dequeued : List Nat
deriving DecidableEq, Repr

/-- Modelled from the spec: one ready-queue operation of the
`ProcessScheduler` (scheduler.h lines 20-37; scheduler.cc is not among the
sources).  Per spec §4.3, enqueue appends at the tail (as
`MoveThreadToReadyQueue`) and dequeue removes the head or does nothing on an
empty queue (as `SelectNextReadyThread` returning NULL); the ledgers record
the history. -/
def stepQueueOp (tr : QueueTrace) : QueueOp → QueueTrace
  | .enq t => { tr with queue := tr.queue ++ [t], enqueued := tr.enqueued ++ [t] }
  | .deq =>
      match tr.queue with
      | [] => tr
      | n :: rest =>
          { queue := rest, enqueued := tr.enqueued, dequeued := tr.dequeued ++ [n] }

/-- Run a sequence of ready-queue operations from the empty queue. -/
def runQueueOps (ops : List QueueOp) : QueueTrace :=
  ops.foldl stepQueueOp { queue := [], enqueued := [], dequeued := [] }

/-- The host architectures distinguished by the preprocessor conditionals of
`CreateThreadStack`: HOST_SNAKE, HOST_SPARC, HOST_i386, and the remaining
HOST_MIPS case. -/
inductive HostArch
  | snake
  | sparc
  | i386
  | mips
deriving DecidableEq, Repr

/-- The code addresses stored into a new thread's saved context: the
`_ThreadRoot` trampoline, the `InterruptEnable` routine
(`{ interrupt->Enable(); }`, thread.cc line 266), the `ThreadFinish` routine
(`{ currentThread->FinishThread(); }`, thread.cc line 265), and arbitrary
user functions. -/
inductive CodeAddr
  | threadRoot
  | interruptEnable
  | threadFinish
  | fn (f : Nat)
deriving DecidableEq, Repr

/-- Modelled from the spec: thread.h, which defines `StackSize` (the
fixed stack allocation, in words), is not among the sources; the spec only
requires the size to be fixed, so the model picks a concrete value. -/
def StackSize : Nat := 1024

/-- `STACK_FENCEPOST` (thread.cc line 23): the sentinel word written into
the execution stack for detecting stack overflows. -/
def STACK_FENCEPOST : Int := 0xdeadbeef

/-- The five saved-context slots of `machineState` populated by
`CreateThreadStack` (thread.cc lines 308-312): `PCState`,
`StartupPCState`, `InitialPCState`, `InitialArgState`, `WhenDonePCState`. -/
structure MachineState where
  pcState : Int
  startupPCState : Int
  initialPCState : Int
  initialArgState : Int
  whenDonePCState : Int
deriving DecidableEq, Repr

/-- The result of `CreateThreadStack`: the freshly allocated stack (a list
of `StackSize` words), the index where `stackTop` points, and the populated
saved-context slots. -/
structure StackInit where
  stack : List Int
  stackTopIndex : Int
  machineState : MachineState
deriving DecidableEq, Repr

/-- `NachOSThread::CreateThreadStack` (thread.cc lines 281-313),
parameterised by the host architecture, a link-time address map `addrOf`
for code addresses, and the forked function and argument.  HOST_SNAKE:
`stackTop = stack + 16`, fencepost written at `stack[StackSize - 1]`.
Otherwise the fencepost goes to `*stack` (index 0), with
`stackTop = stack + StackSize - 96` for HOST_SPARC and
`stackTop = stack + StackSize - 4` for HOST_i386/HOST_MIPS; HOST_i386 in
addition pushes `_ThreadRoot` at `*(--stackTop)`.  The five `machineState`
slots are populated identically on every architecture. -/
def CreateThreadStack (arch : HostArch) (addrOf : CodeAddr → Int)
    (func : CodeAddr) (arg : Int) : StackInit :=
  let stack0 : List Int := List.replicate StackSize 0
  let p : List Int × Int :=
    match arch with
    | .snake => (stack0.set (StackSize - 1) STACK_FENCEPOST, (16 : Int))
    | .sparc => (stack0.set 0 STACK_FENCEPOST, (StackSize : Int) - 96)
    | .i386 =>
        let top := (StackSize : Int) - 4 - 1
        ((stack0.set top.toNat (addrOf .threadRoot)).set 0 STACK_FENCEPOST, top)
    | .mips => (stack0.set 0 STACK_FENCEPOST, (StackSize : Int) - 4)
  { stack := p.1,
    stackTopIndex := p.2,
    machineState :=
      { pcState := addrOf .threadRoot,
        startupPCState := addrOf .interruptEnable,
        initialPCState := addrOf func,
        initialArgState := arg,
        whenDonePCState := addrOf .threadFinish } }

/-- Stack growth direction per architecture, from the comments in
`CreateThreadStack`: "HP stack works from low addresses to high addresses"
(HOST_SNAKE) and "i386 & MIPS & SPARC stack works from high addresses to
low addresses". -/
def growsUpward : HostArch → Bool
  | .snake => true
  | _ => false

/-- The index at the end the stack grows toward — where overflow lands: the
high end for an upward-growing stack, index 0 for a downward-growing one.
This is the position `CheckOverflow` (thread.cc lines 139-148) inspects. -/
def growthEndIndex (a : HostArch) : Nat :=
  if growsUpward a then StackSize - 1 else 0

/-- The index at the end opposite to the stack's growth direction. -/
def oppositeEndIndex (a : HostArch) : Nat :=
  if growsUpward a then 0 else StackSize - 1

/-! ## Helper lemmas -/

theorem getD_set_self {α : Type} : ∀ (l : List α) (i : Nat) (a d : α),
    i < l.length → (l.set i a).getD i d = a
  | [], i, _, _, h => absurd h (by simp)
  | _ :: _, 0, _, _, _ => rfl
  | _ :: xs, i + 1, a, d, h => getD_set_self xs i a d (by simpa using h)

theorem getD_set_ne {α : Type} : ∀ (l : List α) (i j : Nat) (a d : α), i ≠ j →
    (l.set i a).getD j d = l.getD j d
  | [], _, _, _, _, _ => rfl
  | _ :: _, 0, 0, _, _, h => absurd rfl h
  | _ :: _, 0, _ + 1, _, _, _ => rfl
  | _ :: _, _ + 1, 0, _, _, _ => rfl
  | _ :: xs, i + 1, j + 1, a, d, h =>
      getD_set_ne xs i j a d (fun hh => h (by rw [hh]))

theorem getD_replicate {α : Type} : ∀ (n j : Nat) (x d : α), j < n →
    (List.replicate n x).getD j d = x
  | 0, _, _, _, h => absurd h (by simp)
  | _ + 1, 0, _, _, _ => rfl
  | n + 1, j + 1, x, d, h => getD_replicate n j x d (by omega)

theorem searchAux_eq_none (a : Int) : ∀ (l : List Int) (k : Nat),
    searchAux a l k = none ↔ a ∉ l := by
  intro l
  induction l with
  | nil => intro k; simp [searchAux]
  | cons p ps ih =>
      intro k
      by_cases hp : p = a
      · subst hp; simp [searchAux]
      · simp only [searchAux, if_neg hp, ih, List.mem_cons]
        constructor
        · intro hn hc
          rcases hc with hc | hc
          · exact hp hc.symm
          · exact hn hc
        · intro hn hc
          exact hn (Or.inr hc)

theorem searchAux_eq_some (a : Int) : ∀ (l : List Int) (k i : Nat),
    searchAux a l k = some i →
    k ≤ i ∧ i - k < l.length ∧ l.getD (i - k) 0 = a := by
  intro l
  induction l with
  | nil => intro k i h; simp [searchAux] at h
  | cons p ps ih =>
      intro k i h
      simp only [searchAux] at h
      by_cases hp : p = a
      · rw [if_pos hp] at h
        injection h with h2
        subst h2
        subst hp
        simp
      · rw [if_neg hp] at h
        obtain ⟨h1, h2, h3⟩ := ih (k + 1) i h
        refine ⟨by omega, by simp; omega, ?_⟩
        have hik : i - k = (i - (k + 1)) + 1 := by omega
        rw [hik]
        simpa using h3

theorem searchChildpid_mem (t : NachOSThread) (a : Int)
    (h : a ∈ t.child_pids.take t.childCount) :
    ∃ i : Nat, t.SearchChildpid a = (i : Int) ∧
      i < (t.child_pids.take t.childCount).length ∧
      (t.child_pids.take t.childCount).getD i 0 = a := by
  unfold NachOSThread.SearchChildpid
  cases hs : searchAux a (t.child_pids.take t.childCount) 0 with
  | none => exact absurd h ((searchAux_eq_none a _ 0).mp hs)
  | some i =>
      obtain ⟨-, h2, h3⟩ := searchAux_eq_some a _ 0 i hs
      exact ⟨i, rfl, by simpa using h2, by simpa using h3⟩

theorem searchChildpid_not_mem (t : NachOSThread) (a : Int)
    (h : a ∉ t.child_pids.take t.childCount) :
    t.SearchChildpid a = -1 := by
  unfold NachOSThread.SearchChildpid
  rw [(searchAux_eq_none a _ 0).mpr h]

/-! ## Claims -/

/-- C10: `SetChildExitCode` does not validate its argument.  When `childpid`
occurs among the recorded child identifiers (slots `0..childCount-1`), the
scan yields a slot below `childCount` and — the arrays having capacity
`MAXCHILDCOUNT ≥ childCount` — both writes stay in bounds, so the call
succeeds.  When `childpid` is absent, the linear scan yields `-1` and both
writes index the arrays out of bounds (the model's `none`). -/
theorem setChildExitCode_bounds (t : NachOSThread) (childpid code : Int)
    (hcode : t.childexitcode.length = MAXCHILDCOUNT)
    (hstatus : t.childexitstatus.length = MAXCHILDCOUNT)
    (hcount : t.childCount ≤ MAXCHILDCOUNT) :
    (childpid ∈ t.child_pids.take t.childCount →
       0 ≤ t.SearchChildpid childpid ∧
       (t.SearchChildpid childpid).toNat < t.childCount ∧
       t.SetChildExitCode childpid code ≠ none) ∧
    (childpid ∉ t.child_pids.take t.childCount →
       t.SearchChildpid childpid = -1 ∧
       t.SetChildExitCode childpid code = none) := by
  constructor
  · intro hmem
    obtain ⟨i, hi, hlt, -⟩ := searchChildpid_mem t childpid hmem
    have hlt2 : i < t.childCount := lt_of_lt_of_le hlt (by simp [List.length_take])
    refine ⟨by rw [hi]; exact Int.ofNat_nonneg i, by rw [hi]; simpa using hlt2, ?_⟩
    unfold NachOSThread.SetChildExitCode
    rw [hi]
    have hb : (0 : Int) ≤ (i : Int) ∧ ((i : Int)).toNat < t.childexitcode.length ∧
        ((i : Int)).toNat < t.childexitstatus.length := by
      refine ⟨Int.ofNat_nonneg i, ?_, ?_⟩ <;> simp [hcode, hstatus] <;> omega
    rw [if_pos hb]
    by_cases hw : t.waitchildindex = (i : Int) <;> simp [hw]
  · intro habs
    have hs := searchChildpid_not_mem t childpid habs
    refine ⟨hs, ?_⟩
    unfold NachOSThread.SetChildExitCode
    rw [hs]
    norm_num

/-- C10 witness: a parent with one recorded child (pid 2); exit propagation
for the present pid 2 stays in bounds and succeeds, while pid 5 is absent,
the scan yields `-1`, and the writes are out of bounds. -/
theorem setChildExitCode_bounds_witness :
    (NachOSThread.SetChildExitCode
      { pid := 1, ppid := 0, parentthread := none, status := .RUNNING,
        childCount := 1, child_pids := (List.replicate MAXCHILDCOUNT 0).set 0 2,
        childexitcode := List.replicate MAXCHILDCOUNT 0,
        childexitstatus := List.replicate MAXCHILDCOUNT false,
        waitchildindex := -1 } 2 7 ≠ none) ∧
    (NachOSThread.SetChildExitCode
      { pid := 1, ppid := 0, parentthread := none, status := .RUNNING,
        childCount := 1, child_pids := (List.replicate MAXCHILDCOUNT 0).set 0 2,
        childexitcode := List.replicate MAXCHILDCOUNT 0,
        childexitstatus := List.replicate MAXCHILDCOUNT false,
        waitchildindex := -1 } 5 7 = none) :=
  ⟨((setChildExitCode_bounds _ 2 7 (by decide) (by decide) (by decide)).1
      (by decide)).2.2,
   ((setChildExitCode_bounds _ 5 7 (by decide) (by decide) (by decide)).2
      (by decide)).2⟩

/-- The full behaviour of `SetChildExitCode` on a found slot, shared by the
claims about exit propagation and join. -/
theorem setChildExitCode_found (t : NachOSThread) (childpid code : Int) (i : Nat)
    (hsearch : t.SearchChildpid childpid = (i : Int))
    (hc : i < t.childexitcode.length) (hs : i < t.childexitstatus.length) :
    i < t.childCount ∧
    (t.child_pids.take t.childCount).getD i 0 = childpid ∧
    ∃ t1 r, t.SetChildExitCode childpid code = some (t1, r) ∧
      t1.childexitcode.getD i 0 = code ∧
      t1.childexitstatus.getD i false = true ∧
      ((r = true) ↔ t.waitchildindex = (i : Int)) ∧
      t1.waitchildindex = (if t.waitchildindex = (i : Int) then -1 else t.waitchildindex) ∧
      t1.child_pids = t.child_pids ∧ t1.childCount = t.childCount ∧
      t1.pid = t.pid ∧ t1.parentthread = t.parentthread ∧
      t1.childexitcode.length = t.childexitcode.length ∧
      t1.childexitstatus.length = t.childexitstatus.length := by
  have hmem : childpid ∈ t.child_pids.take t.childCount := by
    by_contra habs
    rw [searchChildpid_not_mem t childpid habs] at hsearch
    omega
  obtain ⟨j, hj, hjlt, hjget⟩ := searchChildpid_mem t childpid hmem
  have hij : j = i := by
    rw [hj] at hsearch
    exact_mod_cast hsearch
  subst hij
  have hjc : j < t.childCount := lt_of_lt_of_le hjlt (by simp [List.length_take])
  refine ⟨hjc, hjget, ?_⟩
  unfold NachOSThread.SetChildExitCode
  rw [hj]
  have hb : (0 : Int) ≤ (j : Int) ∧ ((j : Int)).toNat < t.childexitcode.length ∧
      ((j : Int)).toNat < t.childexitstatus.length := by
    refine ⟨Int.ofNat_nonneg j, by simpa using hc, by simpa using hs⟩
  rw [if_pos hb]
  by_cases hw : t.waitchildindex = (j : Int)
  · refine ⟨{ t with childexitcode := t.childexitcode.set j code, childexitstatus := t.childexitstatus.set j true, waitchildindex := -1 }, true,
      by simp [hw], ?_, ?_, by simp [hw], by simp [hw], rfl, rfl, rfl, rfl,
      by simp, by simp⟩
    · simpa using getD_set_self t.childexitcode j code 0 hc
    · simpa using getD_set_self t.childexitstatus j true false hs
  · refine ⟨{ t with childexitcode := t.childexitcode.set j code, childexitstatus := t.childexitstatus.set j true }, false,
      by simp [hw], ?_, ?_, by simp [hw], by simp [hw], rfl, rfl, rfl, rfl,
      by simp, by simp⟩
    · simpa using getD_set_self t.childexitcode j code 0 hc
    · simpa using getD_set_self t.childexitstatus j true false hs

/-- C3: `SetChildExitCode(childpid, code)` locates the child's slot `i` by
the linear scan `SearchChildpid` of the parent's child-identifier list
(so `i` lies below `childCount` and slot `i` holds `childpid`), records the
exit code and sets the slot's exited flag; the parent is moved back onto
the ready queue (`r = true`) and its join index cleared if and only if the
parent's join index equals exactly that slot. -/
theorem setChildExitCode_spec (t : NachOSThread) (childpid code : Int) (i : Nat)
    (hsearch : t.SearchChildpid childpid = (i : Int))
    (hc : i < t.childexitcode.length) (hs : i < t.childexitstatus.length) :
    i < t.childCount ∧
    (t.child_pids.take t.childCount).getD i 0 = childpid ∧
    ∃ t1 r, t.SetChildExitCode childpid code = some (t1, r) ∧
      t1.childexitcode.getD i 0 = code ∧
      t1.childexitstatus.getD i false = true ∧
      ((r = true) ↔ t.waitchildindex = (i : Int)) ∧
      t1.waitchildindex = (if t.waitchildindex = (i : Int) then -1 else t.waitchildindex) ∧
      t1.child_pids = t.child_pids ∧ t1.childCount = t.childCount ∧
      t1.pid = t.pid ∧ t1.parentthread = t.parentthread ∧
      t1.childexitcode.length = t.childexitcode.length ∧
      t1.childexitstatus.length = t.childexitstatus.length :=
  setChildExitCode_found t childpid code i hsearch hc hs

/-- C3 witness: a parent blocked joining slot 0 of child pid 2; propagating
exit code 7 records the code, sets the flag, clears the join index and
re-enqueues the parent. -/
theorem setChildExitCode_spec_witness :
    0 < NachOSThread.childCount
      { pid := 1, ppid := 0, parentthread := none, status := .BLOCKED,
        childCount := 1, child_pids := (List.replicate MAXCHILDCOUNT 0).set 0 2,
        childexitcode := List.replicate MAXCHILDCOUNT 0,
        childexitstatus := List.replicate MAXCHILDCOUNT false,
        waitchildindex := 0 } ∧
    ∃ t1 r, NachOSThread.SetChildExitCode
      { pid := 1, ppid := 0, parentthread := none, status := .BLOCKED,
        childCount := 1, child_pids := (List.replicate MAXCHILDCOUNT 0).set 0 2,
        childexitcode := List.replicate MAXCHILDCOUNT 0,
        childexitstatus := List.replicate MAXCHILDCOUNT false,
        waitchildindex := 0 } 2 7 = some (t1, r) ∧
      t1.childexitcode.getD 0 0 = 7 ∧ t1.childexitstatus.getD 0 false = true ∧
      r = true ∧ t1.waitchildindex = -1 := by
  have h := setChildExitCode_spec
    { pid := 1, ppid := 0, parentthread := none, status := .BLOCKED,
      childCount := 1, child_pids := (List.replicate MAXCHILDCOUNT 0).set 0 2,
      childexitcode := List.replicate MAXCHILDCOUNT 0,
      childexitstatus := List.replicate MAXCHILDCOUNT false,
      waitchildindex := 0 } 2 7 0 (by decide) (by decide) (by decide)
  obtain ⟨h1, -, t1, r, he, hcode, hflag, hr, hw, -⟩ := h
  exact ⟨h1, t1, r, he, hcode, hflag, hr.mpr (by decide), by simpa using hw⟩

/-- C2: `JoinThreadWithChild(index)` called before the child's exit is
recorded (`childexitstatus[index]` false) records the awaited slot in
`waitchildindex` and puts the caller to sleep (status `BLOCKED`); called
when the exit is already recorded it returns the stored `childexitcode[index]`
without blocking and without mutating the thread — so a second join on the
same slot returns the same code without blocking; and if, after the caller
blocked, exit propagation runs on it for the child occupying exactly that
slot, the caller is re-enqueued (`r = true`), its join index cleared, and
the join then yields the freshly recorded code without blocking. -/
theorem joinThreadWithChild_spec (t : NachOSThread) (index : Nat)
    (hs : index < t.childexitstatus.length) (hc : index < t.childexitcode.length) :
    (t.childexitstatus.getD index false = false →
       t.JoinThreadWithChild index =
         some (.blocked { t with waitchildindex := (index : Int), status := .BLOCKED })) ∧
    (t.childexitstatus.getD index false = true →
       t.JoinThreadWithChild index = some (.ret (t.childexitcode.getD index 0) t)) ∧
    (∀ c t1, t.JoinThreadWithChild index = some (.ret c t1) →
       t1 = t ∧ t1.JoinThreadWithChild index = some (.ret c t1)) ∧
    (∀ cp code t2 r,
       NachOSThread.SearchChildpid
           { t with waitchildindex := (index : Int), status := .BLOCKED } cp
         = (index : Int) →
       NachOSThread.SetChildExitCode
           { t with waitchildindex := (index : Int), status := .BLOCKED } cp code
         = some (t2, r) →
       r = true ∧ t2.waitchildindex = -1 ∧
       t2.JoinThreadWithChild index = some (.ret code t2)) := by
  have hbnd : index < t.childexitstatus.length ∧ index < t.childexitcode.length :=
    ⟨hs, hc⟩
  refine ⟨?_, ?_, ?_, ?_⟩
  · intro hflag
    unfold NachOSThread.JoinThreadWithChild
    rw [if_pos hbnd, if_pos hflag]
  · intro hflag
    unfold NachOSThread.JoinThreadWithChild
    rw [if_pos hbnd, if_neg (by rw [hflag]; simp)]
  · intro c t1 h
    unfold NachOSThread.JoinThreadWithChild at h
    rw [if_pos hbnd] at h
    by_cases hflag : t.childexitstatus.getD index false = false
    · rw [if_pos hflag] at h
      exact absurd h (by simp)
    · rw [if_neg hflag] at h
      injection h with h
      injection h with h1 h2
      subst h2
      refine ⟨rfl, ?_⟩
      unfold NachOSThread.JoinThreadWithChild
      rw [if_pos hbnd, if_neg hflag, h1]
  · intro cp code t2 r hsearch hset
    have h3 := setChildExitCode_found
      { t with waitchildindex := (index : Int), status := .BLOCKED } cp code index
      hsearch (by simpa using hc) (by simpa using hs)
    obtain ⟨-, -, t1, r1, he, hcode, hflag, hr, hw, -, -, -, -, hl1, hl2⟩ := h3
    rw [hset] at he
    injection he with he
    injection he with he1 he2
    subst he1
    subst he2
    refine ⟨hr.mpr rfl, by simpa using hw, ?_⟩
    unfold NachOSThread.JoinThreadWithChild
    have hbnd2 : index < t2.childexitstatus.length ∧ index < t2.childexitcode.length := by
      constructor
      · rw [hl2]; exact hs
      · rw [hl1]; exact hc
    rw [if_pos hbnd2, if_neg (by rw [hflag]; simp), hcode]

/-- C2 witness: a parent with child pid 2 in slot 0 and no exit recorded;
its join on slot 0 blocks with the slot recorded, and after exit
propagation with code 7 a join returns 7 without blocking. -/
theorem joinThreadWithChild_spec_witness :
    (NachOSThread.JoinThreadWithChild
      { pid := 1, ppid := 0, parentthread := none, status := .RUNNING,
        childCount := 1, child_pids := (List.replicate MAXCHILDCOUNT 0).set 0 2,
        childexitcode := List.replicate MAXCHILDCOUNT 0,
        childexitstatus := List.replicate MAXCHILDCOUNT false,
        waitchildindex := -1 } 0 =
      some (.blocked
        { pid := 1, ppid := 0, parentthread := none, status := .BLOCKED,
          childCount := 1, child_pids := (List.replicate MAXCHILDCOUNT 0).set 0 2,
          childexitcode := List.replicate MAXCHILDCOUNT 0,
          childexitstatus := List.replicate MAXCHILDCOUNT false,
          waitchildindex := 0 })) ∧
    (∀ t2 r, NachOSThread.SetChildExitCode
        { pid := 1, ppid := 0, parentthread := none, status := .BLOCKED,
          childCount := 1, child_pids := (List.replicate MAXCHILDCOUNT 0).set 0 2,
          childexitcode := List.replicate MAXCHILDCOUNT 0,
          childexitstatus := List.replicate MAXCHILDCOUNT false,
          waitchildindex := 0 } 2 7 = some (t2, r) →
      r = true ∧ t2.waitchildindex = -1 ∧
      t2.JoinThreadWithChild 0 = some (.ret 7 t2)) := by
  have h := joinThreadWithChild_spec
    { pid := 1, ppid := 0, parentthread := none, status := .RUNNING,
      childCount := 1, child_pids := (List.replicate MAXCHILDCOUNT 0).set 0 2,
      childexitcode := List.replicate MAXCHILDCOUNT 0,
      childexitstatus := List.replicate MAXCHILDCOUNT false,
      waitchildindex := -1 } 0 (by decide) (by decide)
  exact ⟨h.1 (by decide), fun t2 r hset => h.2.2.2 2 7 t2 r (by decide) hset⟩

/-- A root thread: pid 1, ppid 0, NULL parent pointer, with one recorded
child (pid 2, slot 0) that has not exited. -/
def rootWithChild : NachOSThread :=
  { pid := 1, ppid := 0, parentthread := none, status := .RUNNING,
    childCount := 1, child_pids := (List.replicate MAXCHILDCOUNT 0).set 0 2,
    childexitcode := List.replicate MAXCHILDCOUNT 0,
    childexitstatus := List.replicate MAXCHILDCOUNT false,
    waitchildindex := -1 }

/-- A root thread with no children at all. -/
def noChildRoot : NachOSThread :=
  { rootWithChild with childCount := 0 }

/-- C1 counterexample: `rootWithChild` is the root thread — no parent — yet
with one child outstanding, `FinishThread` does not halt the system: it
merely marks the thread for destruction and sleeps (`halted = false`),
because `interrupt->Halt()` is reached on a NULL parent only under
`childexitstatus[pid]`, which a freshly constructed table leaves false. -/
theorem finishThread_root_not_halted :
    rootWithChild.parentthread = none ∧
    rootWithChild.childCount ≠ 0 ∧
    rootWithChild.FinishThread = some { readiedParent := none, halted := false } := by
  refine ⟨rfl, by decide, by decide⟩

/-- C1 (amended): `FinishThread` halts the entire system if and only if the
thread has no children outstanding (`childCount == 0`), or its own
child-exit flag at index `pid` (`childexitstatus[pid]`) is set and it has
no parent; in every other case — including the root thread with children
outstanding — it merely marks the thread for destruction and sleeps. -/
theorem finishThread_halts_iff (t : NachOSThread) (o : FinishOutcome)
    (h : t.FinishThread = some o) :
    o.halted = true ↔
      (t.childCount = 0 ∨
        (t.childexitstatus.getD t.pid.toNat false = true ∧ t.parentthread = none)) := by
  unfold NachOSThread.FinishThread at h
  by_cases hb : 0 ≤ t.pid ∧ t.pid.toNat < t.childexitstatus.length
  · rw [if_pos hb] at h
    by_cases hflag : t.childexitstatus.getD t.pid.toNat false = true
    · rw [if_pos hflag] at h
      by_cases hpar : t.parentthread = none
      · rw [if_pos hpar] at h
        injection h with h
        subst h
        exact ⟨fun _ => Or.inr ⟨hflag, hpar⟩, fun _ => rfl⟩
      · rw [if_neg hpar] at h
        by_cases hcc : t.childCount = 0
        · rw [if_pos hcc] at h
          injection h with h
          subst h
          exact ⟨fun _ => Or.inl hcc, fun _ => rfl⟩
        · rw [if_neg hcc] at h
          injection h with h
          subst h
          constructor
          · intro hx
            exact absurd hx (by simp)
          · intro hx
            rcases hx with hx | hx
            · exact absurd hx hcc
            · exact absurd hx.2 hpar
    · rw [if_neg hflag] at h
      by_cases hcc : t.childCount = 0
      · rw [if_pos hcc] at h
        injection h with h
        subst h
        exact ⟨fun _ => Or.inl hcc, fun _ => rfl⟩
      · rw [if_neg hcc] at h
        injection h with h
        subst h
        constructor
        · intro hx
          exact absurd hx (by simp)
        · intro hx
          rcases hx with hx | hx
          · exact absurd hx hcc
          · exact absurd hx.1 hflag
  · rw [if_neg hb] at h
    exact absurd h (by simp)

/-- C1 witness: a root thread with no children; `FinishThread` reaches
`interrupt->Halt()`, and the amended characterisation confirms it. -/
theorem finishThread_halts_iff_witness :
    ({ readiedParent := none, halted := true } : FinishOutcome).halted = true ↔
      (noChildRoot.childCount = 0 ∨
        (noChildRoot.childexitstatus.getD noChildRoot.pid.toNat false = true ∧
         noChildRoot.parentthread = none)) :=
  finishThread_halts_iff noChildRoot { readiedParent := none, halted := true } (by decide)

/-- C4: for the running thread `t` invoking `YieldCPU`: with an empty ready
queue the call is a no-op — the very same state, interrupt level included,
and the same thread keeps running; with a non-empty queue the running
thread is re-enqueued at the tail, the switch goes to the thread dequeued
from the head, and the interrupt level is restored to its pre-call value. -/
theorem yieldCPU_spec (t : Nat) (s : SysState) (hcur : t = s.current) :
    (s.readyQueue = [] → YieldCPU t s = some s) ∧
    (∀ n rest, s.readyQueue = n :: rest →
       ∃ s1, YieldCPU t s = some s1 ∧
         s1.readyQueue = rest ++ [t] ∧
         s1.current = n ∧
         s1.intLevel = s.intLevel) := by
  subst hcur
  constructor
  · intro hq
    cases s with
    | mk q c lvl st =>
        simp only at hq
        subst hq
        simp [YieldCPU, SelectNextReadyThread]
  · intro n rest hq
    cases s with
    | mk q c lvl st =>
        simp only at hq
        subst hq
        refine ⟨{ readyQueue := rest ++ [c], current := n, intLevel := lvl, statusOf := Function.update (Function.update st c ThreadStatus.READY) n ThreadStatus.RUNNING }, ?_, rfl, rfl, rfl⟩
        simp [YieldCPU, SelectNextReadyThread, MoveThreadToReadyQueue, ScheduleThread]

/-- C4 witness: current thread 1 with ready queue [2] yields: 2 is dequeued
and becomes current, 1 joins the tail, the interrupt level is restored. -/
theorem yieldCPU_spec_witness :
    ∃ s1, YieldCPU 1 ⟨[2], 1, .IntOn, fun _ => .READY⟩ = some s1 ∧
      s1.readyQueue = [] ++ [1] ∧
      s1.current = 2 ∧
      s1.intLevel = IntStatus.IntOn :=
  (yieldCPU_spec 1 ⟨[2], 1, .IntOn, fun _ => .READY⟩ rfl).2 2 [] rfl

/-- C5: `PutThreadToSleep`, invoked by the current thread with interrupts
off, sets the caller's status to `BLOCKED` and retries the dequeue through
the idle-wait (`sleepLoop`, which on an empty queue consumes one external
event per `interrupt->Idle()` and retries); whenever the loop yields a
dequeued thread `n`, the operation switches exactly to `n` — never to a
null thread — leaving `n` running at the head state. -/
theorem putThreadToSleep_spec (t : Nat) (s : SysState) (events : List (List Nat))
    (n : Nat) (rest : List Nat)
    (hcur : t = s.current) (hint : s.intLevel = .IntOff)
    (hloop : sleepLoop s.readyQueue events = some (n, rest)) :
    (∃ s1, PutThreadToSleep t s events = .switched n s1 ∧
       s1.current = n ∧
       s1.readyQueue = rest ∧
       s1.statusOf n = .RUNNING ∧
       (n ≠ t → s1.statusOf t = .BLOCKED)) ∧
    (∀ e es, sleepLoop ([] : List Nat) (e :: es) = sleepLoop e es) ∧
    (∀ m s2, PutThreadToSleep t s events = .switched m s2 → m = n) := by
  have hpre : t = s.current ∧ s.intLevel = IntStatus.IntOff := ⟨hcur, hint⟩
  refine ⟨?_, fun e es => rfl, ?_⟩
  · refine ⟨ScheduleThread { s with readyQueue := rest, statusOf := Function.update s.statusOf t ThreadStatus.BLOCKED } n, ?_, rfl, rfl, ?_, ?_⟩
    · simp only [PutThreadToSleep, if_pos hpre]
      rw [hloop]
    · show Function.update (Function.update s.statusOf t ThreadStatus.BLOCKED) n ThreadStatus.RUNNING n = ThreadStatus.RUNNING
      rw [Function.update_same]
    · intro hne
      show Function.update (Function.update s.statusOf t ThreadStatus.BLOCKED) n ThreadStatus.RUNNING t = ThreadStatus.BLOCKED
      rw [Function.update_noteq (fun h => hne h.symm), Function.update_same]
  · intro m s2 hm
    simp only [PutThreadToSleep, if_pos hpre] at hm
    rw [hloop] at hm
    injection hm with h1 h2
    exact h1.symm

/-- C5 witness: thread 1 sleeps on an empty ready queue; one external event
readies thread 2, the idle loop retries and the switch goes to 2. -/
theorem putThreadToSleep_spec_witness :
    ∃ s1, PutThreadToSleep 1 ⟨[], 1, .IntOff, fun _ => .RUNNING⟩ [[2]] = .switched 2 s1 ∧
      s1.current = 2 ∧
      s1.readyQueue = [] ∧
      s1.statusOf 2 = .RUNNING ∧
      (2 ≠ 1 → s1.statusOf 1 = .BLOCKED) :=
  (putThreadToSleep_spec 1 ⟨[], 1, .IntOff, fun _ => .RUNNING⟩ [[2]] 2 []
    rfl rfl rfl).1

/-- C6: the integrity assertions are fatal rather than recoverable:
`PutThreadToSleep` invoked by a thread that is not the current thread, or
with interrupts (preemption) still enabled, trips `ASSERT` and never
proceeds to a switch; destroying the currently running thread trips the
destructor's `ASSERT(this != currentThread)`. -/
theorem fatalAsserts_spec (t : Nat) (s : SysState) (events : List (List Nat)) :
    (t ≠ s.current → PutThreadToSleep t s events = .assertFail) ∧
    (s.intLevel = .IntOn → PutThreadToSleep t s events = .assertFail) ∧
    (t = s.current → threadDestructor t s = .assertFail) := by
  refine ⟨?_, ?_, ?_⟩
  · intro hne
    unfold PutThreadToSleep
    rw [if_neg]
    intro hpre
    exact hne hpre.1
  · intro hon
    unfold PutThreadToSleep
    rw [if_neg]
    intro hpre
    rw [hon] at hpre
    exact absurd hpre.2 (by simp)
  · intro heq
    unfold threadDestructor
    rw [if_pos heq]

/-- C6 witness: thread 2 sleeping while thread 1 runs, thread 1 sleeping
with interrupts on, and thread 1 destroying itself, each trip an assert. -/
theorem fatalAsserts_spec_witness :
    PutThreadToSleep 2 ⟨[], 1, .IntOff, fun _ => .RUNNING⟩ [] = .assertFail ∧
    PutThreadToSleep 1 ⟨[], 1, .IntOn, fun _ => .RUNNING⟩ [] = .assertFail ∧
    threadDestructor 1 ⟨[], 1, .IntOff, fun _ => .RUNNING⟩ = .assertFail :=
  ⟨(fatalAsserts_spec 2 ⟨[], 1, .IntOff, fun _ => .RUNNING⟩ []).1 (by decide),
   (fatalAsserts_spec 1 ⟨[], 1, .IntOn, fun _ => .RUNNING⟩ []).2.1 rfl,
   (fatalAsserts_spec 1 ⟨[], 1, .IntOff, fun _ => .RUNNING⟩ []).2.2 rfl⟩

theorem runQueueOps_invariant (ops : List QueueOp) : ∀ tr : QueueTrace,
    tr.enqueued = tr.dequeued ++ tr.queue →
    (ops.foldl stepQueueOp tr).enqueued =
      (ops.foldl stepQueueOp tr).dequeued ++ (ops.foldl stepQueueOp tr).queue := by
  induction ops with
  | nil => intro tr h; simpa using h
  | cons op ops ih =>
      intro tr h
      simp only [List.foldl_cons]
      apply ih
      cases op with
      | enq t => simp [stepQueueOp, h]
      | deq =>
          cases hq : tr.queue with
          | nil =>
              simp only [stepQueueOp, hq]
              rw [h, hq]
          | cons n rest =>
              simp only [stepQueueOp, hq]
              rw [h, hq]
              simp

/-- C7: for every sequence of enqueue (`MoveThreadToReadyQueue`) and
dequeue (`SelectNextReadyThread`) operations on the ready queue, the
enqueue history equals the dequeue history followed by the remaining
queue — dequeue returns thread ids in exact insertion order, strict FIFO
with no priority — and the queue is empty iff the enqueue and (successful)
dequeue counts are equal. -/
theorem readyQueue_fifo (ops : List QueueOp) :
    (runQueueOps ops).enqueued =
      (runQueueOps ops).dequeued ++ (runQueueOps ops).queue ∧
    ((runQueueOps ops).queue = [] ↔
      (runQueueOps ops).enqueued.length = (runQueueOps ops).dequeued.length) := by
  have h : (runQueueOps ops).enqueued =
      (runQueueOps ops).dequeued ++ (runQueueOps ops).queue :=
    runQueueOps_invariant ops { queue := [], enqueued := [], dequeued := [] } rfl
  refine ⟨h, ?_, ?_⟩
  · intro he
    rw [h, he]
    simp
  · intro hlen
    have h2 := congrArg List.length h
    rw [List.length_append] at h2
    have h3 : (runQueueOps ops).queue.length = 0 := by omega
    exact List.length_eq_zero.mp h3

/-- C8 counterexample: on HOST_MIPS the stack grows from high addresses to
low addresses, and `CreateThreadStack` writes the `0xdeadbeef` fencepost at
index 0 — the end the stack grows toward — while the end opposite to the
growth direction does not hold the sentinel.  The claimed position
"the end opposite to growth direction" is therefore wrong. -/
theorem createThreadStack_fencepost_position :
    growsUpward .mips = false ∧
    (CreateThreadStack .mips (fun _ => 0) (.fn 7) 5).stack.getD
        (oppositeEndIndex .mips) 0 ≠ STACK_FENCEPOST ∧
    (CreateThreadStack .mips (fun _ => 0) (.fn 7) 5).stack.getD
        (growthEndIndex .mips) 0 = STACK_FENCEPOST := by
  refine ⟨rfl, ?_, ?_⟩
  · show ((List.replicate StackSize (0 : Int)).set 0 STACK_FENCEPOST).getD
        (oppositeEndIndex .mips) 0 ≠ STACK_FENCEPOST
    have hg : oppositeEndIndex .mips = StackSize - 1 := rfl
    rw [hg, getD_set_ne _ _ _ _ _ (by decide),
      getD_replicate _ _ _ _ (by decide)]
    decide
  · show ((List.replicate StackSize (0 : Int)).set 0 STACK_FENCEPOST).getD
        (growthEndIndex .mips) 0 = STACK_FENCEPOST
    have hg : growthEndIndex .mips = 0 := rfl
    rw [hg]
    exact getD_set_self _ _ _ _ (by rw [List.length_replicate]; decide)

/-- C8 (amended): for every architecture, function and argument,
`CreateThreadStack` allocates a fixed-size stack of `StackSize` words,
writes the sentinel fencepost word `0xdeadbeef` at the overflow end of the
stack — the end the stack grows toward: index 0 for the downward-growing
i386/MIPS/SPARC, index `StackSize - 1` for the upward-growing Snake — and
populates exactly the five saved-context slots: the resume program counter
with the `_ThreadRoot` trampoline, the startup program counter with the
`InterruptEnable` preemption-enable routine, the target function pointer,
its single integer argument, and the when-done slot with the `ThreadFinish`
thread-finish routine. -/
theorem createThreadStack_spec (arch : HostArch) (addrOf : CodeAddr → Int)
    (func : CodeAddr) (arg : Int) :
    (CreateThreadStack arch addrOf func arg).stack.length = StackSize ∧
    (CreateThreadStack arch addrOf func arg).stack.getD (growthEndIndex arch) 0 =
      STACK_FENCEPOST ∧
    (CreateThreadStack arch addrOf func arg).machineState =
      { pcState := addrOf .threadRoot,
        startupPCState := addrOf .interruptEnable,
        initialPCState := addrOf func,
        initialArgState := arg,
        whenDonePCState := addrOf .threadFinish } := by
  cases arch with
  | snake =>
      refine ⟨?_, ?_, rfl⟩
      · show ((List.replicate StackSize (0 : Int)).set (StackSize - 1)
            STACK_FENCEPOST).length = StackSize
        rw [List.length_set, List.length_replicate]
      · show ((List.replicate StackSize (0 : Int)).set (StackSize - 1)
            STACK_FENCEPOST).getD (growthEndIndex .snake) 0 = STACK_FENCEPOST
        have hg : growthEndIndex .snake = StackSize - 1 := rfl
        rw [hg]
        exact getD_set_self _ _ _ _ (by rw [List.length_replicate]; decide)
  | sparc =>
      refine ⟨?_, ?_, rfl⟩
      · show ((List.replicate StackSize (0 : Int)).set 0
            STACK_FENCEPOST).length = StackSize
        rw [List.length_set, List.length_replicate]
      · show ((List.replicate StackSize (0 : Int)).set 0
            STACK_FENCEPOST).getD (growthEndIndex .sparc) 0 = STACK_FENCEPOST
        have hg : growthEndIndex .sparc = 0 := rfl
        rw [hg]
        exact getD_set_self _ _ _ _ (by rw [List.length_replicate]; decide)
  | i386 =>
      refine ⟨?_, ?_, rfl⟩
      · show (((List.replicate StackSize (0 : Int)).set
            ((StackSize : Int) - 4 - 1).toNat (addrOf .threadRoot)).set 0
            STACK_FENCEPOST).length = StackSize
        rw [List.length_set, List.length_set, List.length_replicate]
      · show (((List.replicate StackSize (0 : Int)).set
            ((StackSize : Int) - 4 - 1).toNat (addrOf .threadRoot)).set 0
            STACK_FENCEPOST).getD (growthEndIndex .i386) 0 = STACK_FENCEPOST
        have hg : growthEndIndex .i386 = 0 := rfl
        rw [hg]
        refine getD_set_self _ _ _ _ ?_
        rw [List.length_set, List.length_replicate]
        decide
  | mips =>
      refine ⟨?_, ?_, rfl⟩
      · show ((List.replicate StackSize (0 : Int)).set 0
            STACK_FENCEPOST).length = StackSize
        rw [List.length_set, List.length_replicate]
      · show ((List.replicate StackSize (0 : Int)).set 0
            STACK_FENCEPOST).getD (growthEndIndex .mips) 0 = STACK_FENCEPOST
        have hg : growthEndIndex .mips = 0 := rfl
        rw [hg]
        exact getD_set_self _ _ _ _ (by rw [List.length_replicate]; decide)

theorem constructSeqAux_spec : ∀ (curs : List (Option Int)) (ap : Int)
    (ts : List NachOSThread), constructSeqAux ap curs = some ts →
    ts.length = curs.length ∧
    ∀ i t, ts.get? i = some t →
      t.pid = ap + (i : Int) ∧
      (ap + (i : Int) = 1 → t.ppid = 0 ∧ t.parentthread = none) ∧
      (ap + (i : Int) ≠ 1 →
        ∃ c, curs.get? i = some (some c) ∧ t.ppid = c ∧ t.parentthread = some c) := by
  intro curs
  induction curs with
  | nil =>
      intro ap ts h
      simp only [constructSeqAux, Option.some.injEq] at h
      subst h
      simp
  | cons c cs ih =>
      intro ap ts h
      simp only [constructSeqAux] at h
      cases hct : constructThread ap c with
      | none => rw [hct] at h; exact absurd h (by simp)
      | some pr =>
          obtain ⟨t0, ap1⟩ := pr
          rw [hct] at h
          dsimp only at h
          cases hrest : constructSeqAux ap1 cs with
          | none => rw [hrest] at h; exact absurd h (by simp)
          | some ts1 =>
              rw [hrest] at h
              simp only [Option.some.injEq] at h
              subst h
              have hap1 : ap1 = ap + 1 := by
                unfold constructThread at hct
                by_cases hone : ap = 1
                · rw [if_pos hone] at hct
                  injection hct with hct
                  exact (congrArg Prod.snd hct).symm
                · rw [if_neg hone] at hct
                  cases c with
                  | none => exact absurd hct (by simp)
                  | some cv =>
                      simp only [Option.some.injEq] at hct
                      exact (congrArg Prod.snd hct).symm
              subst hap1
              obtain ⟨hlen1, hall⟩ := ih (ap + 1) ts1 hrest
              constructor
              · simp [hlen1]
              · intro i t hget
                cases i with
                | zero =>
                    simp only [List.get?] at hget
                    injection hget with hget
                    subst hget
                    unfold constructThread at hct
                    by_cases hone : ap = 1
                    · rw [if_pos hone] at hct
                      injection hct with hct
                      have ht0 := congrArg Prod.fst hct
                      simp only at ht0
                      subst ht0
                      refine ⟨by simpa using hone.symm, fun _ => ⟨rfl, rfl⟩, ?_⟩
                      intro hne
                      exact absurd (by simpa using hone) hne
                    · rw [if_neg hone] at hct
                      cases c with
                      | none => exact absurd hct (by simp)
                      | some cv =>
                          simp only [Option.some.injEq] at hct
                          have ht0 := congrArg Prod.fst hct
                          simp only at ht0
                          subst ht0
                          refine ⟨by simp, ?_, ?_⟩
                          · intro h1
                            exact absurd (by simpa using h1) hone
                          · intro _
                            exact ⟨cv, rfl, rfl, rfl⟩
                | succ n =>
                    have hget1 : ts1.get? n = some t := hget
                    obtain ⟨hp, hppid1, hppid2⟩ := hall n t hget1
                    have harith : ap + 1 + (n : Int) = ap + ((n : Int) + 1) := by ring
                    refine ⟨?_, ?_, ?_⟩
                    · rw [hp, harith]
                      push_cast
                      ring
                    · intro h1
                      apply hppid1
                      rw [harith]
                      push_cast at h1 ⊢
                      linarith
                    · intro h1
                      have h2 : ap + 1 + (n : Int) ≠ 1 := by
                        rw [harith]
                        push_cast at h1 ⊢
                        intro hx
                        apply h1
                        linarith
                      obtain ⟨cv, hc1, hc2, hc3⟩ := hppid2 h2
                      exact ⟨cv, hc1, hc2, hc3⟩

/-- C9: for every sequence of thread constructions with process semantics
active, starting from the initial `availpid = 1`: the `i`-th constructed
thread receives pid `1 + i` — so pids start at 1 and each is strictly
greater than every previously assigned pid; the first thread has ppid 0
and a NULL parent pointer, and every later thread's ppid equals the pid of
the thread that was current at its construction. -/
theorem runConstructions_spec (curs : List (Option Int)) (ts : List NachOSThread)
    (h : runConstructions curs = some ts) :
    ts.length = curs.length ∧
    (∀ i t, ts.get? i = some t → t.pid = 1 + (i : Int)) ∧
    (∀ i j ti tj, i < j → ts.get? i = some ti → ts.get? j = some tj →
       ti.pid < tj.pid) ∧
    (∀ t, ts.get? 0 = some t → t.pid = 1 ∧ t.ppid = 0 ∧ t.parentthread = none) ∧
    (∀ i t, 0 < i → ts.get? i = some t →
       ∃ c, curs.get? i = some (some c) ∧ t.ppid = c ∧ t.parentthread = some c) := by
  obtain ⟨hlen, hall⟩ := constructSeqAux_spec curs 1 ts h
  refine ⟨hlen, ?_, ?_, ?_, ?_⟩
  · intro i t hget
    exact (hall i t hget).1
  · intro i j ti tj hij hgi hgj
    have h1 := (hall i ti hgi).1
    have h2 := (hall j tj hgj).1
    rw [h1, h2]
    have : (i : Int) < (j : Int) := by exact_mod_cast hij
    linarith
  · intro t hget
    have h1 := hall 0 t hget
    refine ⟨by simpa using h1.1, ?_⟩
    apply h1.2.1
    simp
  · intro i t hpos hget
    have h1 := hall i t hget
    apply h1.2.2
    have : (0 : Int) < (i : Int) := by exact_mod_cast hpos
    intro hx
    linarith

/-- C9 witness: three constructions — the root (NULL current thread), then
two children created while thread 1 is current — receive pids 1, 2, 3, the
root has ppid 0 and no parent, and both children have ppid 1. -/
theorem runConstructions_spec_witness :
    ((runConstructions [none, some 1, some 1]).getD []).length =
      ([none, some 1, some 1] : List (Option Int)).length :=
  (runConstructions_spec [none, some 1, some 1]
    ((runConstructions [none, some 1, some 1]).getD []) rfl).1

end NachOS
